import Mathlib

/-!
Shallow embedding of `src/bot.py` (a chat-bot with two JSON-backed item
stores, a feature-flag store, two polling delivery loops, and slash-command
handlers), together with theorems checking the specification's claims.

Conventions of the embedding:
* Python ints appearing here are ids/counters/code points, all nonnegative;
  they are modelled as `Nat`.
* `json.dumps`/`json.loads` are deterministic on the values this program
  writes, so a snapshot file's byte content is modelled by the JSON value
  written to it (`J` below); "the file is unchanged byte-for-byte" is
  modelled as "the stored `J` value is unchanged".
* Wall-clock readings (`datetime.now()` and its derived strings) enter the
  model as explicit parameters.
* The external messaging client (channel cache lookup, remote fetch, send)
  enters the model as an explicit environment record; a raised
  `DiscordException` is modelled as an `Except.error` / `false` outcome.
-/

/-- JSON values as written and read by `json.dumps` / `json.loads` for the
snapshot files of `bot.py`. The integers this program writes are nonnegative
ids and counters, so numbers are modelled as `Nat`. -/
inductive J where
  | null : J
  | nat : Nat → J
  | str : String → J
  | arr : List J → J
  | obj : List (String × J) → J
deriving Repr

/-- Embeds the `ScheduleItem` dataclass of `bot.py` (field for field).
`time` is an "HH:MM" local-time string, `last_run_date` an optional ISO date
string. -/
structure ScheduleItem where
  id : Nat
  guild_id : Nat
  channel_id : Nat
  time : String
  message : String
  last_run_date : Option String
deriving Repr, DecidableEq

/-- Embeds the `TaskItem` dataclass of `bot.py` (field for field). -/
structure TaskItem where
  id : Nat
  guild_id : Nat
  task : String
  urgency : Option String
  deadline : Option String
  created_at : String
deriving Repr, DecidableEq

/-- State of a `ScheduleStore`: the in-memory `_items` list, the `_next_id`
counter, and the current content of the snapshot file at `self.path`
(`none` when the file does not exist). -/
structure ScheduleStoreState where
  items : List ScheduleItem
  next_id : Nat
  file : Option J
deriving Repr

/-- State of a `TaskStore`, analogous to `ScheduleStoreState`. -/
structure TaskStoreState where
  items : List TaskItem
  next_id : Nat
  file : Option J
deriving Repr

namespace ScheduleStore

/-- Embeds `item.__dict__` as serialized by `ScheduleStore.save`. -/
def encodeItem (it : ScheduleItem) : J :=
  J.obj [("id", J.nat it.id), ("guild_id", J.nat it.guild_id),
         ("channel_id", J.nat it.channel_id), ("time", J.str it.time),
         ("message", J.str it.message),
         ("last_run_date", match it.last_run_date with
                           | none => J.null
                           | some d => J.str d)]

/-- Embeds the snapshot dictionary built by `ScheduleStore.save`:
`{"next_id": ..., "items": [...]}`. -/
def encodeSnapshot (next_id : Nat) (items : List ScheduleItem) : J :=
  J.obj [("next_id", J.nat next_id), ("items", J.arr (items.map encodeItem))]

/-- Embeds `ScheduleStore.save`: overwrites the snapshot file with the
serialized id counter and item list. -/
def save (st : ScheduleStoreState) : ScheduleStoreState :=
  { st with file := some (encodeSnapshot st.next_id st.items) }

/-- Embeds `ScheduleStore.add`: builds the item with `id = self._next_id`
and `last_run_date = None`, increments the counter, appends, saves, and
returns the created item. -/
def add (st : ScheduleStoreState) (guild_id channel_id : Nat)
    (time message : String) : ScheduleStoreState × ScheduleItem :=
  let item : ScheduleItem :=
    { id := st.next_id, guild_id := guild_id, channel_id := channel_id,
      time := time, message := message, last_run_date := none }
  (save { st with items := st.items ++ [item], next_id := st.next_id + 1 },
   item)

/-- Embeds `ScheduleStore.remove`: filters out items with the given id,
returns whether anything was removed, and saves only in that case. -/
def remove (st : ScheduleStoreState) (schedule_id : Nat) :
    ScheduleStoreState × Bool :=
  let kept := st.items.filter (fun it => it.id ≠ schedule_id)
  if kept.length = st.items.length then (st, false)
  else (save { st with items := kept }, true)

/-- Embeds `ScheduleStore.list_for_guild`. -/
def list_for_guild (st : ScheduleStoreState) (guild_id : Nat) :
    List ScheduleItem :=
  st.items.filter (fun it => it.guild_id = guild_id)

/-- Embeds `ScheduleStore.all` (a point-in-time copy of `_items`). -/
def all (st : ScheduleStoreState) : List ScheduleItem := st.items

/-- Helper for `update_last_run`: the Python loop sets `last_run_date` on
the first item whose id matches and then breaks. -/
def setFirstLastRun : List ScheduleItem → Nat → String → List ScheduleItem
  | [], _, _ => []
  | it :: rest, sid, d =>
    if it.id = sid then { it with last_run_date := some d } :: rest
    else it :: setFirstLastRun rest sid d

/-- Embeds `ScheduleStore.update_last_run`: sets `last_run_date` of the
first matching item to the given ISO date string (`run_date.isoformat()` in
the source) and saves unconditionally. -/
def update_last_run (st : ScheduleStoreState) (schedule_id : Nat)
    (run_date : String) : ScheduleStoreState :=
  save { st with items := setFirstLastRun st.items schedule_id run_date }

/-- Partial inverse used by `load`: reads a `Nat` field. -/
def asNat : J → Option Nat
  | J.nat n => some n
  | _ => none

/-- Partial inverse used by `load`: reads a string field. -/
def asStr : J → Option String
  | J.str s => some s
  | _ => none

/-- Partial inverse used by `load`: reads an optional string field
(JSON `null` becomes `none`). -/
def asOptStr : J → Option (Option String)
  | J.null => some none
  | J.str s => some (some s)
  | _ => none

/-- Embeds `ScheduleItem(**item)` applied to one decoded JSON dictionary:
the five required fields must be present with the dataclass's types,
`last_run_date` defaults to `None` when absent, and an unexpected key makes
the constructor call raise. Python does not enforce the type annotations at
runtime, but every snapshot written by `save` satisfies them, and this
decoder reads exactly those. -/
def decodeItem (j : J) : Option ScheduleItem :=
  match j with
  | J.obj fs =>
    match fs.lookup "id", fs.lookup "guild_id", fs.lookup "channel_id",
          fs.lookup "time", fs.lookup "message" with
    | some jid, some jg, some jc, some jt, some jm =>
      match asNat jid, asNat jg, asNat jc, asStr jt, asStr jm with
      | some i, some g, some c, some t, some m =>
        match (match fs.lookup "last_run_date" with
               | none => some none
               | some v => asOptStr v) with
        | some lr =>
          if fs.all (fun p => p.1 == "id" || p.1 == "guild_id" ||
                              p.1 == "channel_id" || p.1 == "time" ||
                              p.1 == "message" || p.1 == "last_run_date")
          then some ⟨i, g, c, t, m, lr⟩ else none
        | none => none
      | _, _, _, _, _ => none
    | _, _, _, _, _ => none
  | _ => none

/-- Embeds the list comprehension `[ScheduleItem(**item) for item in ...]`:
the first failing element makes the whole load fail. -/
def decodeItems : List J → Option (List ScheduleItem)
  | [] => some []
  | j :: rest =>
    match decodeItem j with
    | some it =>
      match decodeItems rest with
      | some its => some (it :: its)
      | none => none
    | none => none

/-- Embeds `ScheduleStore.load` applied to the current file content: a
missing file yields the empty collection with `next_id = 1`; otherwise the
top-level dictionary is read with `data.get("items", [])` and
`data.get("next_id", 1)`; malformed content fails (the exception
propagates, modelled as `none`). -/
def load (file : Option J) : Option (List ScheduleItem × Nat) :=
  match file with
  | none => some ([], 1)
  | some j =>
    match j with
    | J.obj fs =>
      match (fs.lookup "items").getD (J.arr []) with
      | J.arr js =>
        match decodeItems js with
        | some its =>
          match asNat ((fs.lookup "next_id").getD (J.nat 1)) with
          | some n => some (its, n)
          | none => none
        | none => none
      | _ => none
    | _ => none

end ScheduleStore

namespace TaskStore

/-- Embeds `item.__dict__` as serialized by `TaskStore.save`. -/
def encodeItem (it : TaskItem) : J :=
  J.obj [("id", J.nat it.id), ("guild_id", J.nat it.guild_id),
         ("task", J.str it.task),
         ("urgency", match it.urgency with
                     | none => J.null
                     | some u => J.str u),
         ("deadline", match it.deadline with
                      | none => J.null
                      | some d => J.str d),
         ("created_at", J.str it.created_at)]

/-- Embeds the snapshot dictionary built by `TaskStore.save`. -/
def encodeSnapshot (next_id : Nat) (items : List TaskItem) : J :=
  J.obj [("next_id", J.nat next_id), ("items", J.arr (items.map encodeItem))]

/-- Embeds `TaskStore.save`. -/
def save (st : TaskStoreState) : TaskStoreState :=
  { st with file := some (encodeSnapshot st.next_id st.items) }

/-- Embeds `TaskStore.add`; `created_at` (the `datetime.now().isoformat`
string in the source) enters as an explicit parameter. -/
def add (st : TaskStoreState) (guild_id : Nat) (task : String)
    (urgency deadline : Option String) (created_at : String) :
    TaskStoreState × TaskItem :=
  let item : TaskItem :=
    { id := st.next_id, guild_id := guild_id, task := task,
      urgency := urgency, deadline := deadline, created_at := created_at }
  (save { st with items := st.items ++ [item], next_id := st.next_id + 1 },
   item)

/-- Embeds `TaskStore.remove`. -/
def remove (st : TaskStoreState) (task_id : Nat) : TaskStoreState × Bool :=
  let kept := st.items.filter (fun it => it.id ≠ task_id)
  if kept.length = st.items.length then (st, false)
  else (save { st with items := kept }, true)

/-- Embeds `TaskStore.list_for_guild`. -/
def list_for_guild (st : TaskStoreState) (guild_id : Nat) : List TaskItem :=
  st.items.filter (fun it => it.guild_id = guild_id)

/-- Embeds `TaskItem(**item)` applied to one decoded JSON dictionary;
`urgency` and `deadline` default to `None` and `created_at` to `""` when
absent. -/
def decodeItem (j : J) : Option TaskItem :=
  match j with
  | J.obj fs =>
    match fs.lookup "id", fs.lookup "guild_id", fs.lookup "task" with
    | some jid, some jg, some jt =>
      match ScheduleStore.asNat jid, ScheduleStore.asNat jg,
            ScheduleStore.asStr jt with
      | some i, some g, some t =>
        match (match fs.lookup "urgency" with
               | none => some none
               | some v => ScheduleStore.asOptStr v),
              (match fs.lookup "deadline" with
               | none => some none
               | some v => ScheduleStore.asOptStr v),
              (match fs.lookup "created_at" with
               | none => some ""
               | some v => ScheduleStore.asStr v) with
        | some u, some d, some ca =>
          if fs.all (fun p => p.1 == "id" || p.1 == "guild_id" ||
                              p.1 == "task" || p.1 == "urgency" ||
                              p.1 == "deadline" || p.1 == "created_at")
          then some ⟨i, g, t, u, d, ca⟩ else none
        | _, _, _ => none
      | _, _, _ => none
    | _, _, _ => none
  | _ => none

/-- Embeds `[TaskItem(**item) for item in ...]`. -/
def decodeItems : List J → Option (List TaskItem)
  | [] => some []
  | j :: rest =>
    match decodeItem j with
    | some it =>
      match decodeItems rest with
      | some its => some (it :: its)
      | none => none
    | none => none

/-- Embeds `TaskStore.load` applied to the current file content. -/
def load (file : Option J) : Option (List TaskItem × Nat) :=
  match file with
  | none => some ([], 1)
  | some j =>
    match j with
    | J.obj fs =>
      match (fs.lookup "items").getD (J.arr []) with
      | J.arr js =>
        match decodeItems js with
        | some its =>
          match ScheduleStore.asNat ((fs.lookup "next_id").getD (J.nat 1)) with
          | some n => some (its, n)
          | none => none
        | none => none
      | _ => none
    | _ => none

end TaskStore

/-- Settings record stored per guild by the `ConfigStore` for the hourly
task list feature. -/
structure HourlyFlag where
  enabled : Bool
  channel_id : Option Nat
deriving Repr, DecidableEq

/-- State of the `ConfigStore`'s `hourly_task_list` map. Python keys the map
by `str(guild_id)`; since `str` is injective on ints, guild ids key it
directly here. -/
structure ConfigState where
  hourly_task_list : List (Nat × HourlyFlag)
deriving Repr

namespace ConfigStore

/-- Embeds `ConfigStore.get_hourly_task_list`: returns the guild's record or
the default `{"enabled": False, "channel_id": None}`; reading never mutates
the store. -/
def get_hourly_task_list (cfg : ConfigState) (guild_id : Nat) : HourlyFlag :=
  (cfg.hourly_task_list.lookup guild_id).getD ⟨false, none⟩

/-- Embeds `ConfigStore.set_hourly_task_list`: upserts the guild's record. -/
def set_hourly_task_list (cfg : ConfigState) (guild_id : Nat)
    (enabled : Bool) (channel_id : Option Nat) : ConfigState :=
  ⟨(guild_id, ⟨enabled, channel_id⟩) ::
    cfg.hourly_task_list.filter (fun p => p.1 ≠ guild_id)⟩

end ConfigStore

/-- Numeric code point of a character, as compared by CPython's regex
character classes and string comparison. -/
def charCode (c : Char) : Nat := c.toNat

/-- ASCII decimal digit test, the `\d` class of CPython's `_strptime`
regexes restricted to ASCII (the program's own inputs and outputs are
ASCII time strings). -/
def isAsciiDigit (c : Char) : Bool := 48 ≤ charCode c && charCode c ≤ 57

/-- Numeric value of an ASCII digit character. -/
def digitVal (c : Char) : Nat := charCode c - 48

/-- Embeds the `%H` regex alternative `2[0-3]|[0-1]\d` of CPython's
`_strptime.TimeRE` matching a two-digit hour. -/
def hourTwoDigits (a b : Char) : Bool :=
  (charCode a = 50 && 48 ≤ charCode b && charCode b ≤ 51) ||
  (48 ≤ charCode a && charCode a ≤ 49 && isAsciiDigit b)

/-- Embeds the `%M` regex `[0-5]\d|\d` of CPython's `_strptime.TimeRE`,
required here to consume the whole remaining input (strptime raises on
unconverted trailing data). -/
def minuteRest : List Char → Bool
  | [a, b] => 48 ≤ charCode a && charCode a ≤ 53 && isAsciiDigit b
  | [a] => isAsciiDigit a
  | _ => false

/-- Literal `:` of the format string followed by the minute pattern. -/
def colonMinute : List Char → Bool
  | c :: rest => charCode c = 58 && minuteRest rest
  | [] => false

/-- Embeds `_is_valid_time` from `bot.py`: `datetime.strptime(value,
"%H:%M")` succeeds exactly when the whole string matches
`(2[0-3]|[0-1]\d|\d):([0-5]\d|\d)` (CPython `_strptime` semantics,
including regex backtracking from the two-digit hour alternative to the
one-digit one). -/
def is_valid_time (value : String) : Bool :=
  match value.data with
  | a :: b :: rest =>
    (hourTwoDigits a b && colonMinute rest) ||
    (isAsciiDigit a && colonMinute (b :: rest))
  | _ => false

/-- Lexicographic code-point comparison of character lists: Python's `<` on
strings, used by `sorted` when comparing the tuple keys of
`build_task_embed`. -/
def strLtb : List Char → List Char → Bool
  | [], [] => false
  | [], _ :: _ => true
  | _ :: _, [] => false
  | x :: xs, y :: ys =>
    if charCode x < charCode y then true
    else if charCode y < charCode x then false
    else strLtb xs ys

/-- Embeds `(item.urgency or "").lower()` followed by the
`urgency_rank.get(..., 3)` lookup of `build_task_embed`:
`{"high": 0, "medium": 1, "low": 2}` with default 3. -/
def urgencyRank (urgency : Option String) : Nat :=
  let s : String := ⟨(urgency.getD "").data.map Char.toLower⟩
  if s = "high" then 0
  else if s = "medium" then 1
  else if s = "low" then 2
  else 3

/-- Embeds the deadline component of `sort_key` in `build_task_embed`:
`item.deadline if item.deadline else "9999-12-31"` (Python truthiness: both
`None` and the empty string fall back to the sentinel). -/
def deadlineSortKey (deadline : Option String) : String :=
  match deadline with
  | some s => if s.data = [] then "9999-12-31" else s
  | none => "9999-12-31"

/-- Strict comparison of the `sort_key` tuples
`(deadline_sort, urgency_sort, item.id)` of `build_task_embed`, i.e.
Python's `<` on those tuples. -/
def taskKeyLt (a b : TaskItem) : Bool :=
  let da := (deadlineSortKey a.deadline).data
  let db := (deadlineSortKey b.deadline).data
  strLtb da db ||
  (da == db &&
    (urgencyRank a.urgency < urgencyRank b.urgency ||
     (urgencyRank a.urgency = urgencyRank b.urgency && a.id < b.id)))

/-- Stable insertion into a list already sorted by `taskKeyLt`: the new
element goes after every element not strictly greater than it. -/
def insertTask (x : TaskItem) : List TaskItem → List TaskItem
  | [] => [x]
  | y :: ys => if taskKeyLt x y then x :: y :: ys else y :: insertTask x ys

/-- Embeds `sorted(items, key=sort_key)` of `build_task_embed`. Python's
`sorted` is the stable sort with respect to `<` on the keys; stable sorting
by a total preorder has a unique result, so this left-to-right stable
insertion sort computes exactly the list `sorted` returns. -/
def sortTasks (items : List TaskItem) : List TaskItem :=
  items.foldl (fun acc x => insertTask x acc) []

/-- One field of the digest embed, as added by `embed.add_field`. -/
structure EmbedField where
  name : String
  value : String
deriving Repr, DecidableEq

/-- The digest embed built by `build_task_embed`: the title and the ordered
field list (color omitted, a constant). -/
structure TaskEmbed where
  title : String
  fields : List EmbedField
deriving Repr, DecidableEq

/-- Embeds the per-item rendering of `build_task_embed`: the urgency
emoji tag (only for a truthy urgency string), the task text, and the
deadline detail line (only for a truthy deadline string). -/
def renderTaskField (item : TaskItem) : EmbedField :=
  let tag : String :=
    match item.urgency with
    | none => ""
    | some u =>
      if u.data = [] then ""
      else
        let s : String := ⟨u.data.map Char.toLower⟩
        if s = "high" then "🟥 "
        else if s = "medium" then "🟧 "
        else if s = "low" then "🟩 "
        else "⬜ "
  let detail : String :=
    match item.deadline with
    | none => ""
    | some d => if d.data = [] then "" else "\n" ++ "Deadline: " ++ d
  { name := "#" ++ toString item.id, value := tag ++ item.task ++ detail }

/-- Embeds `build_task_embed` from `bot.py`: sorts the items by
`sort_key` and renders one embed field per item in that order. -/
def build_task_embed (items : List TaskItem) : TaskEmbed :=
  { title := "Checklist", fields := (sortTasks items).map renderTaskField }

/-- External messaging client as used by the two scheduler loops. Channels
are identified by their numeric id; `get_channel` is the local cache lookup
(never raises), `fetch_channel` the remote fetch (`Except.error` models a
raised `DiscordException`), `is_text_channel` the
`isinstance(channel, discord.TextChannel)` test, and `send_ok` tells whether
`channel.send` succeeds (`false` models a raised `DiscordException`). -/
structure Gateway where
  get_channel : Nat → Option Nat
  fetch_channel : Nat → Except Unit Nat
  system_channel : Nat → Option Nat
  is_text_channel : Nat → Bool
  send_ok : Nat → Bool

/-- Channel resolution of `_check_schedules`: the cache lookup, falling back
to the remote fetch on a cache miss. -/
def resolveChannel (gw : Gateway) (cid : Nat) : Except Unit Nat :=
  match gw.get_channel cid with
  | some ch => Except.ok ch
  | none => gw.fetch_channel cid

/-- Result of one `_check_schedules` tick: the schedule store after the
tick, the ids of the items for which delivery was attempted (the guards
passed and the `try` block was entered), and the successful sends as
`(channel id, message)` pairs, each in processing order. -/
structure SchedTick where
  store : ScheduleStoreState
  attempts : List Nat
  sends : List (Nat × String)
deriving Repr

/-- Loop body of `_check_schedules` over the remaining snapshot items.
The Python loop iterates over the point-in-time copy `self.store.all()`
while `update_last_run` mutates the store; because `update_last_run` only
ever rewrites the first item carrying the fired item's id — a position the
loop has already passed — iterating the frozen snapshot is observationally
identical. An item is skipped unless its `time` equals the tick's formatted
time and its `last_run_date` differs from today's ISO string; a failed
fetch or send is caught and the loop continues; only a successful send is
followed by `update_last_run`. -/
def checkSchedulesAux (gw : Gateway) (nowTime today : String) :
    List ScheduleItem → ScheduleStoreState → SchedTick
  | [], st => ⟨st, [], []⟩
  | it :: rest, st =>
    if it.time == nowTime && !(it.last_run_date == some today) then
      match resolveChannel gw it.channel_id with
      | Except.error _ =>
        let r := checkSchedulesAux gw nowTime today rest st
        ⟨r.store, it.id :: r.attempts, r.sends⟩
      | Except.ok ch =>
        if gw.is_text_channel ch then
          if gw.send_ok ch then
            let st2 := ScheduleStore.update_last_run st it.id today
            let r := checkSchedulesAux gw nowTime today rest st2
            ⟨r.store, it.id :: r.attempts, (ch, it.message) :: r.sends⟩
          else
            let r := checkSchedulesAux gw nowTime today rest st
            ⟨r.store, it.id :: r.attempts, r.sends⟩
        else
          let r := checkSchedulesAux gw nowTime today rest st
          ⟨r.store, it.id :: r.attempts, r.sends⟩
    else
      checkSchedulesAux gw nowTime today rest st

/-- Embeds one tick of `BotClient._check_schedules`: `nowTime` is
`now.strftime("%H:%M")` and `today` is `now.date().isoformat()`. -/
def checkSchedules (gw : Gateway) (nowTime today : String)
    (st : ScheduleStoreState) : SchedTick :=
  checkSchedulesAux gw nowTime today (ScheduleStore.all st) st

/-- Guard of `_check_schedules` for one item, as a predicate on the
snapshot element. -/
def scheduleDue (nowTime today : String) (it : ScheduleItem) : Bool :=
  it.time == nowTime && !(it.last_run_date == some today)

/-- Per-guild outcome of one `_check_hourly_task_list` tick. -/
inductive HourlyOutcome where
  | disabled : HourlyOutcome
  | fetchFailed : HourlyOutcome
  | noChannel : HourlyOutcome
  | noTasks : HourlyOutcome
  | sent : Nat → TaskEmbed → HourlyOutcome
  | sendFailed : Nat → HourlyOutcome
deriving Repr, DecidableEq

/-- Per-guild body of `_check_hourly_task_list`: reads the feature flag,
resolves the destination channel — the configured channel id when truthy
(`if channel_id:` — `None` and `0` both fall through), else the guild's
system channel — skips when no channel or no tasks, builds the digest and
sends, catching a failed fetch or send for this guild only. -/
def processGuild (gw : Gateway) (cfg : ConfigState) (tasks : TaskStoreState)
    (guild : Nat) : HourlyOutcome :=
  let settings := ConfigStore.get_hourly_task_list cfg guild
  if !settings.enabled then HourlyOutcome.disabled
  else
    let chan : Option HourlyOutcome ⊕ Nat :=
      match settings.channel_id with
      | some cid =>
        if cid = 0 then
          match gw.system_channel guild with
          | some ch => Sum.inr ch
          | none => Sum.inl (some HourlyOutcome.noChannel)
        else
          match gw.get_channel cid with
          | some ch => Sum.inr ch
          | none =>
            match gw.fetch_channel cid with
            | Except.ok ch => Sum.inr ch
            | Except.error _ => Sum.inl (some HourlyOutcome.fetchFailed)
      | none =>
        match gw.system_channel guild with
        | some ch => Sum.inr ch
        | none => Sum.inl (some HourlyOutcome.noChannel)
    match chan with
    | Sum.inl _ =>
      match chan with
      | Sum.inl (some o) => o
      | _ => HourlyOutcome.noChannel
    | Sum.inr ch =>
      let items := TaskStore.list_for_guild tasks guild
      if items.isEmpty then HourlyOutcome.noTasks
      else if gw.send_ok ch then HourlyOutcome.sent ch (build_task_embed items)
      else HourlyOutcome.sendFailed ch

/-- Embeds one tick of `BotClient._check_hourly_task_list`: the body
returns immediately unless `now.minute == 0` and `now.second <= 5`; inside
the window every guild of `self.guilds` is processed in order, each
producing an outcome (failures are caught per guild). -/
def checkHourly (now_minute now_second : Nat) (gw : Gateway)
    (cfg : ConfigState) (tasks : TaskStoreState) (guilds : List Nat) :
    List (Nat × HourlyOutcome) :=
  if now_minute ≠ 0 then []
  else if now_second > 5 then []
  else guilds.map (fun g => (g, processGuild gw cfg tasks g))

/-- Embeds the store-facing behaviour of the `schedule_add` command handler:
the time argument is validated with `_is_valid_time` before any mutation;
on success `store.add` is called with the argument strings verbatim.
(`none` also stands for the no-mutation replies on a missing guild or an
unresolvable text channel.) -/
def schedule_add (st : ScheduleStoreState) (guild_id channel_id : Nat)
    (time message : String) : Option (ScheduleStoreState × ScheduleItem) :=
  if is_valid_time time then
    some (ScheduleStore.add st guild_id channel_id time message)
  else none

/-- Embeds the `schedule_remove` command handler: it calls `store.remove`
with the given id only — the interaction's guild (first parameter) is never
consulted. -/
def schedule_remove (_invoking_guild : Option Nat) (st : ScheduleStoreState)
    (schedule_id : Nat) : ScheduleStoreState × Bool :=
  ScheduleStore.remove st schedule_id

/-- Embeds the `task_remove` command handler: it calls `tasks.remove` with
the given id only — the interaction's guild is never consulted. -/
def task_remove (_invoking_guild : Option Nat) (st : TaskStoreState)
    (task_id : Nat) : TaskStoreState × Bool :=
  TaskStore.remove st task_id

/-- Written from the specification's words for comparison with the code's
sort key: the digest order claimed by the spec — deadline ascending with
items lacking a deadline last, then urgency rank, then id ascending.
Urgency ranking is shared with the code (`urgencyRank`); the difference
under test is the treatment of missing deadlines. -/
def specTaskLt (a b : TaskItem) : Bool :=
  let tie : Bool :=
    urgencyRank a.urgency < urgencyRank b.urgency ||
    (urgencyRank a.urgency = urgencyRank b.urgency && a.id < b.id)
  match a.deadline, b.deadline with
  | some da, some db => strLtb da.data db.data || (da.data == db.data && tie)
  | some _, none => true
  | none, some _ => false
  | none, none => tie

/-- Non-strict form of `specTaskLt`, the relation a list sorted as the
spec describes is pairwise ordered by. -/
def specTaskLe (a b : TaskItem) : Bool := !(specTaskLt b a)

/-- Written from the specification's words: a well-formed zero-padded
24-hour `HH:MM` string — exactly five characters, a two-digit hour
`00`–`23`, a colon, a two-digit minute `00`–`59`. -/
def zeroPaddedHHMM (s : String) : Bool :=
  match s.data with
  | [a, b, c, d, e] =>
    hourTwoDigits a b && charCode c = 58 &&
    48 ≤ charCode d && charCode d ≤ 53 && isAsciiDigit e
  | _ => false

/-- Written from the specification's words: the semantic reading of a
24-hour time string — an hour of one or two digits with value below 24, a
colon, a minute of one or two digits with value below 60 — phrased by
digit values rather than by the code's regex character classes. -/
def timeSem (s : String) : Bool :=
  match s.data with
  | [a, c, b] =>
    isAsciiDigit a && charCode c = 58 && isAsciiDigit b &&
    digitVal a < 24 && digitVal b < 60
  | [a, b, c, d] =>
    (charCode b = 58 && isAsciiDigit a && isAsciiDigit c && isAsciiDigit d &&
     digitVal a < 24 && 10 * digitVal c + digitVal d < 60) ||
    (charCode c = 58 && isAsciiDigit a && isAsciiDigit b && isAsciiDigit d &&
     10 * digitVal a + digitVal b < 24 && digitVal d < 60)
  | [a, b, c, d, e] =>
    charCode c = 58 && isAsciiDigit a && isAsciiDigit b &&
    isAsciiDigit d && isAsciiDigit e &&
    10 * digitVal a + digitVal b < 24 && 10 * digitVal d + digitVal e < 60
  | _ => false

/-- Two-digit zero-padded decimal rendering of a number below 100, used to
state that every zero-padded `HH:MM` string passes the validator. -/
def pad2 (n : Nat) : String :=
  ⟨if n < 10 then ['0', Char.ofNat (48 + n)]
   else [Char.ofNat (48 + n / 10), Char.ofNat (48 + n % 10)]⟩

/-- Delivery guard of `_check_schedules` after the due checks: the channel
resolves and is a text channel and the send succeeds. -/
def deliverSuccess (gw : Gateway) (it : ScheduleItem) : Bool :=
  match resolveChannel gw it.channel_id with
  | Except.ok ch => gw.is_text_channel ch && gw.send_ok ch
  | Except.error _ => false

/-- Gateway fixture for the concrete witnesses: every channel id resolves
from the cache to itself, every channel is a text channel, every send
succeeds. -/
def gwAllOk : Gateway :=
  ⟨fun c => some c, fun _ => Except.error (), fun _ => none,
   fun _ => true, fun _ => true⟩

/-- Schedule store fixture for the concrete witnesses: one item due at
09:00 that last fired on 2024-01-01. -/
def stW : ScheduleStoreState :=
  ⟨[⟨1, 10, 20, "09:00", "hello", some "2024-01-01"⟩], 2, none⟩

/-- Task store fixture for the concrete witnesses. -/
def tasksW : TaskStoreState :=
  ⟨[⟨1, 7, "write report", some "high", some "2024-01-05", "2024-01-01T10:00:00"⟩], 2, none⟩

/-- Task item fixtures for the digest-order counterexample: `ceA` lacks a
deadline and is high urgency, `ceB` carries the sentinel deadline
`9999-12-31` and is low urgency. -/
def ceA : TaskItem := ⟨1, 7, "alpha", some "high", none, ""⟩

/-- Companion fixture to `ceA`; see there. -/
def ceB : TaskItem := ⟨2, 7, "beta", some "low", some "9999-12-31", ""⟩

/-- Deadlines under which the code's sentinel-based sort key agrees with
the spec's missing-deadlines-last order: a present deadline must be a
nonempty string strictly below the sentinel `"9999-12-31"`. Every real
`YYYY-MM-DD` date other than the sentinel itself satisfies this. -/
def goodDeadline (it : TaskItem) : Bool :=
  match it.deadline with
  | some d => !d.data.isEmpty && strLtb d.data "9999-12-31".data
  | none => true

/-- Task list fixture taken from the specification's digest-order example:
no deadline/low urgency, then 2024-01-01/high, then 2024-01-01/medium. -/
def tasksLW : List TaskItem :=
  [⟨1, 7, "a", some "low", none, ""⟩,
   ⟨2, 7, "b", some "high", some "2024-01-01", ""⟩,
   ⟨3, 7, "c", some "medium", some "2024-01-01", ""⟩]

lemma charCode_inj {x y : Char} (h : charCode x = charCode y) : x = y := by
  cases x with
  | mk xv hx =>
    cases y with
    | mk yv hy =>
      simp only [charCode, Char.toNat] at h
      congr 1
      exact UInt32.ext h

lemma filter_eq_self_of_length {α : Type} {p : α → Bool} :
    ∀ {l : List α}, (l.filter p).length = l.length → l.filter p = l := by
  intro l
  induction l with
  | nil => simp
  | cons x xs ih =>
    intro h
    rw [List.filter_cons] at h ⊢
    by_cases hp : p x = true
    · rw [if_pos hp] at h ⊢
      simp only [List.length_cons] at h
      rw [ih (by omega)]
    · rw [if_neg hp] at h
      have := List.length_filter_le p xs
      simp only [List.length_cons] at h
      exfalso
      omega

lemma length_filter_lt_of_mem {α : Type} {p : α → Bool} {x : α} :
    ∀ {l : List α}, x ∈ l → p x = false → (l.filter p).length < l.length := by
  intro l
  induction l with
  | nil => simp
  | cons y ys ih =>
    intro hx hp
    rw [List.filter_cons]
    rcases List.mem_cons.mp hx with rfl | hmem
    · rw [if_neg (by simp [hp])]
      have := List.length_filter_le p ys
      simp only [List.length_cons]
      omega
    · by_cases hy : p y = true
      · rw [if_pos hy]
        simp only [List.length_cons]
        exact Nat.succ_lt_succ (ih hmem hp)
      · rw [if_neg hy]
        simp only [List.length_cons]
        exact Nat.lt_trans (ih hmem hp) (Nat.lt_succ_self _)

lemma sched_remove_absent {st : ScheduleStoreState} {rid : Nat}
    (h : ∀ it ∈ st.items, it.id ≠ rid) :
    ScheduleStore.remove st rid = (st, false) := by
  have hfil : st.items.filter (fun it => it.id ≠ rid) = st.items :=
    List.filter_eq_self.mpr (by simpa using h)
  simp only [ScheduleStore.remove]
  rw [hfil, if_pos rfl]

lemma sched_remove_present {st : ScheduleStoreState} {rid : Nat}
    {it : ScheduleItem} (hit : it ∈ st.items) (hid : it.id = rid) :
    ScheduleStore.remove st rid =
      (ScheduleStore.save
        { st with items := st.items.filter (fun x => x.id ≠ rid) }, true) := by
  have hlt : (st.items.filter (fun x => decide (x.id ≠ rid))).length <
      st.items.length :=
    length_filter_lt_of_mem hit (by simp [hid])
  simp only [ScheduleStore.remove]
  rw [if_neg (by omega)]

lemma task_remove_absent {st : TaskStoreState} {rid : Nat}
    (h : ∀ it ∈ st.items, it.id ≠ rid) :
    TaskStore.remove st rid = (st, false) := by
  have hfil : st.items.filter (fun it => it.id ≠ rid) = st.items :=
    List.filter_eq_self.mpr (by simpa using h)
  simp only [TaskStore.remove]
  rw [hfil, if_pos rfl]

lemma task_remove_present {st : TaskStoreState} {rid : Nat}
    {it : TaskItem} (hit : it ∈ st.items) (hid : it.id = rid) :
    TaskStore.remove st rid =
      (TaskStore.save
        { st with items := st.items.filter (fun x => x.id ≠ rid) }, true) := by
  have hlt : (st.items.filter (fun x => decide (x.id ≠ rid))).length <
      st.items.length :=
    length_filter_lt_of_mem hit (by simp [hid])
  simp only [TaskStore.remove]
  rw [if_neg (by omega)]

lemma sched_decode_encode (it : ScheduleItem) :
    ScheduleStore.decodeItem (ScheduleStore.encodeItem it) = some it := by
  cases it with
  | mk i g c t m lr => cases lr <;> rfl

lemma sched_decodeItems_encode (l : List ScheduleItem) :
    ScheduleStore.decodeItems (l.map ScheduleStore.encodeItem) = some l := by
  induction l with
  | nil => rfl
  | cons x xs ih =>
    simp only [List.map_cons, ScheduleStore.decodeItems, sched_decode_encode, ih]

lemma task_decode_encode (it : TaskItem) :
    TaskStore.decodeItem (TaskStore.encodeItem it) = some it := by
  cases it with
  | mk i g t u d ca => cases u <;> cases d <;> rfl

lemma task_decodeItems_encode (l : List TaskItem) :
    TaskStore.decodeItems (l.map TaskStore.encodeItem) = some l := by
  induction l with
  | nil => rfl
  | cons x xs ih =>
    simp only [List.map_cons, TaskStore.decodeItems, task_decode_encode, ih]

lemma sched_load_encodeSnapshot (n : Nat) (l : List ScheduleItem) :
    ScheduleStore.load (some (ScheduleStore.encodeSnapshot n l)) = some (l, n) := by
  have hne : ("items" == "next_id") = false := by decide
  simp only [ScheduleStore.load, ScheduleStore.encodeSnapshot, List.lookup]
  norm_num [hne, sched_decodeItems_encode, ScheduleStore.asNat]

lemma task_load_encodeSnapshot (n : Nat) (l : List TaskItem) :
    TaskStore.load (some (TaskStore.encodeSnapshot n l)) = some (l, n) := by
  have hne : ("items" == "next_id") = false := by decide
  simp only [TaskStore.load, TaskStore.encodeSnapshot, List.lookup]
  norm_num [hne, task_decodeItems_encode, ScheduleStore.asNat]

/-- Claim C7: for every store state, saving and then loading the written
snapshot restores an item collection equal field-for-field to the original
and the same `next_id` — for the schedule store and the task store alike. -/
theorem c7_save_load_roundtrip (st : ScheduleStoreState) (ts : TaskStoreState) :
    ScheduleStore.load (ScheduleStore.save st).file = some (st.items, st.next_id) ∧
    TaskStore.load (TaskStore.save ts).file = some (ts.items, ts.next_id) :=
  ⟨sched_load_encodeSnapshot st.next_id st.items,
   task_load_encodeSnapshot ts.next_id ts.items⟩

/-- Claim C5: removing an id not present in a store returns `false` and
changes nothing — neither the in-memory collection nor the snapshot file;
removing a present id removes exactly the items with that id, returns
`true`, and persists the new snapshot. Both stores behave alike. -/
theorem c5_remove_semantics (st : ScheduleStoreState) (ts : TaskStoreState)
    (rid : Nat) :
    ((∀ it ∈ st.items, it.id ≠ rid) → ScheduleStore.remove st rid = (st, false)) ∧
    (∀ it ∈ st.items, it.id = rid →
      (ScheduleStore.remove st rid).2 = true ∧
      (ScheduleStore.remove st rid).1.items
        = st.items.filter (fun x => x.id ≠ rid) ∧
      (ScheduleStore.remove st rid).1.file
        = some (ScheduleStore.encodeSnapshot st.next_id
            (st.items.filter (fun x => x.id ≠ rid)))) ∧
    ((∀ it ∈ ts.items, it.id ≠ rid) → TaskStore.remove ts rid = (ts, false)) ∧
    (∀ it ∈ ts.items, it.id = rid →
      (TaskStore.remove ts rid).2 = true ∧
      (TaskStore.remove ts rid).1.items
        = ts.items.filter (fun x => x.id ≠ rid) ∧
      (TaskStore.remove ts rid).1.file
        = some (TaskStore.encodeSnapshot ts.next_id
            (ts.items.filter (fun x => x.id ≠ rid)))) := by
  refine ⟨fun h => sched_remove_absent h, fun it hit hid => ?_,
          fun h => task_remove_absent h, fun it hit hid => ?_⟩
  · rw [sched_remove_present hit hid]
    exact ⟨rfl, rfl, rfl⟩
  · rw [task_remove_present hit hid]
    exact ⟨rfl, rfl, rfl⟩

/-- Closed witness for `c5_remove_semantics`: evaluates both branches on the
concrete fixture stores. -/
theorem c5_remove_semantics_witness :
    ScheduleStore.remove stW 99 = (stW, false) ∧
    (TaskStore.remove tasksW 1).2 = true ∧
    (TaskStore.remove tasksW 1).1.items = [] := by
  have h := c5_remove_semantics stW tasksW 99
  have h2 := c5_remove_semantics stW tasksW 1
  refine ⟨h.1 (by decide), ?_, ?_⟩
  · exact (h2.2.2.2 ⟨1, 7, "write report", some "high", some "2024-01-05",
      "2024-01-01T10:00:00"⟩ (by decide) rfl).1
  · have := (h2.2.2.2 ⟨1, 7, "write report", some "high", some "2024-01-05",
      "2024-01-01T10:00:00"⟩ (by decide) rfl).2.1
    rw [this]
    decide

/-- Claim C6: `add` assigns the new item `id = next_id`, increments
`next_id`, appends the item, immediately persists the full snapshot, and
returns the created item; under the store invariant that every present id
is below `next_id`, the fresh id is strictly greater than all of them and
the invariant is preserved; `list_for_guild` for the item's guild
immediately ends with the new item. Both stores behave alike. -/
theorem c6_add_semantics (st : ScheduleStoreState) (g c : Nat) (t m : String)
    (ts : TaskStoreState) (g2 : Nat) (tk : String) (u d : Option String)
    (ca : String) :
    ((ScheduleStore.add st g c t m).2 = ⟨st.next_id, g, c, t, m, none⟩
     ∧ (ScheduleStore.add st g c t m).1.items
        = st.items ++ [⟨st.next_id, g, c, t, m, none⟩]
     ∧ (ScheduleStore.add st g c t m).1.next_id = st.next_id + 1
     ∧ (ScheduleStore.add st g c t m).1.file
        = some (ScheduleStore.encodeSnapshot (st.next_id + 1)
            (st.items ++ [⟨st.next_id, g, c, t, m, none⟩]))
     ∧ ScheduleStore.list_for_guild (ScheduleStore.add st g c t m).1 g
        = ScheduleStore.list_for_guild st g ++ [⟨st.next_id, g, c, t, m, none⟩]
     ∧ ((∀ x ∈ st.items, x.id < st.next_id) →
         (∀ x ∈ st.items, x.id < (ScheduleStore.add st g c t m).2.id) ∧
         ∀ x ∈ (ScheduleStore.add st g c t m).1.items,
           x.id < (ScheduleStore.add st g c t m).1.next_id))
    ∧ ((TaskStore.add ts g2 tk u d ca).2 = ⟨ts.next_id, g2, tk, u, d, ca⟩
     ∧ (TaskStore.add ts g2 tk u d ca).1.items
        = ts.items ++ [⟨ts.next_id, g2, tk, u, d, ca⟩]
     ∧ (TaskStore.add ts g2 tk u d ca).1.next_id = ts.next_id + 1
     ∧ (TaskStore.add ts g2 tk u d ca).1.file
        = some (TaskStore.encodeSnapshot (ts.next_id + 1)
            (ts.items ++ [⟨ts.next_id, g2, tk, u, d, ca⟩]))
     ∧ TaskStore.list_for_guild (TaskStore.add ts g2 tk u d ca).1 g2
        = TaskStore.list_for_guild ts g2 ++ [⟨ts.next_id, g2, tk, u, d, ca⟩]
     ∧ ((∀ x ∈ ts.items, x.id < ts.next_id) →
         (∀ x ∈ ts.items, x.id < (TaskStore.add ts g2 tk u d ca).2.id) ∧
         ∀ x ∈ (TaskStore.add ts g2 tk u d ca).1.items,
           x.id < (TaskStore.add ts g2 tk u d ca).1.next_id)) := by
  constructor
  · refine ⟨rfl, rfl, rfl, rfl, ?_, ?_⟩
    · simp [ScheduleStore.add, ScheduleStore.save, ScheduleStore.list_for_guild,
        List.filter_append]
    · intro h
      refine ⟨fun x hx => h x hx, fun x hx => ?_⟩
      simp only [ScheduleStore.add, ScheduleStore.save, List.mem_append,
        List.mem_singleton] at hx
      rcases hx with hx | rfl
      · exact Nat.lt_trans (h x hx) (Nat.lt_succ_self _)
      · exact Nat.lt_succ_self _
  · refine ⟨rfl, rfl, rfl, rfl, ?_, ?_⟩
    · simp [TaskStore.add, TaskStore.save, TaskStore.list_for_guild,
        List.filter_append]
    · intro h
      refine ⟨fun x hx => h x hx, fun x hx => ?_⟩
      simp only [TaskStore.add, TaskStore.save, List.mem_append,
        List.mem_singleton] at hx
      rcases hx with hx | rfl
      · exact Nat.lt_trans (h x hx) (Nat.lt_succ_self _)
      · exact Nat.lt_succ_self _

/-- Closed witness for `c6_add_semantics`: the invariant hypothesis holds
on the fixture store and the fresh id 2 exceeds the present id 1. -/
theorem c6_add_semantics_witness :
    (ScheduleStore.add stW 10 20 "12:00" "m").2.id = 2 ∧
    (∀ x ∈ stW.items, x.id < (ScheduleStore.add stW 10 20 "12:00" "m").2.id) := by
  have h := c6_add_semantics stW 10 20 "12:00" "m" tasksW 7 "t" none none ""
  exact ⟨by rw [h.1.1]; rfl, (h.1.2.2.2.2.2 (by decide)).1⟩

/-- Claim C9: the remove command handlers pay no attention to the invoking
guild: their result is the same for any interaction guild and equals the
store-level `remove`, which matches on id only — an item of any guild is
removed, with a `true` reply, when the command carries its id from any
other guild. -/
theorem c9_remove_guild_agnostic (gA gB : Option Nat)
    (st : ScheduleStoreState) (ts : TaskStoreState) (rid : Nat) :
    schedule_remove gA st rid = schedule_remove gB st rid
    ∧ schedule_remove gB st rid = ScheduleStore.remove st rid
    ∧ (∀ it ∈ st.items, it.id = rid →
        (schedule_remove gB st rid).2 = true ∧
        it ∉ (schedule_remove gB st rid).1.items)
    ∧ task_remove gA ts rid = task_remove gB ts rid
    ∧ task_remove gB ts rid = TaskStore.remove ts rid
    ∧ (∀ it ∈ ts.items, it.id = rid →
        (task_remove gB ts rid).2 = true ∧
        it ∉ (task_remove gB ts rid).1.items) := by
  refine ⟨rfl, rfl, fun it hit hid => ?_, rfl, rfl, fun it hit hid => ?_⟩
  · rw [schedule_remove, sched_remove_present hit hid]
    refine ⟨rfl, fun hmem => ?_⟩
    simp only [ScheduleStore.save, List.mem_filter, hid] at hmem
    exact (by simpa using hmem.2 : ¬(rid = rid)) rfl
  · rw [task_remove, task_remove_present hit hid]
    refine ⟨rfl, fun hmem => ?_⟩
    simp only [TaskStore.save, List.mem_filter, hid] at hmem
    exact (by simpa using hmem.2 : ¬(rid = rid)) rfl

/-- Closed witness for `c9_remove_guild_agnostic`: the only schedule item
belongs to guild 10, yet a remove carrying its id invoked from guild 999
returns `true` and deletes it. -/
theorem c9_remove_guild_agnostic_witness :
    (schedule_remove (some 999) stW 1).2 = true ∧
    (⟨1, 10, 20, "09:00", "hello", some "2024-01-01"⟩ : ScheduleItem) ∉
      (schedule_remove (some 999) stW 1).1.items := by
  have h := c9_remove_guild_agnostic (some 10) (some 999) stW tasksW 1
  exact h.2.2.1 ⟨1, 10, 20, "09:00", "hello", some "2024-01-01"⟩ (by decide) rfl

lemma setFirst_absent {sid : Nat} {d : String} :
    ∀ {l : List ScheduleItem}, (∀ it ∈ l, it.id ≠ sid) →
      ScheduleStore.setFirstLastRun l sid d = l := by
  intro l
  induction l with
  | nil => intro _; rfl
  | cons x xs ih =>
    intro h
    rw [ScheduleStore.setFirstLastRun,
        if_neg (h x (List.mem_cons_self x xs)), ih (fun it hit => h it (List.mem_cons_of_mem x hit))]

lemma setFirst_decomp {sid : Nat} {d : String} {x : ScheduleItem}
    (hx : x.id = sid) :
    ∀ (pre post : List ScheduleItem), (∀ y ∈ pre, y.id ≠ sid) →
      ScheduleStore.setFirstLastRun (pre ++ x :: post) sid d
        = pre ++ { x with last_run_date := some d } :: post := by
  intro pre
  induction pre with
  | nil =>
    intro post _
    simp only [List.nil_append, ScheduleStore.setFirstLastRun, if_pos hx]
  | cons y ys ih =>
    intro post h
    simp only [List.cons_append, ScheduleStore.setFirstLastRun,
      if_neg (h y (List.mem_cons_self y ys))]
    rw [List.append_eq, ih post (fun z hz => h z (List.mem_cons_of_mem y hz))]

/-- Claim C10: `update_last_run` keeps `next_id`, rewrites the snapshot file
unconditionally, leaves the collection untouched when no item carries the
id (the rewritten snapshot then encodes the unchanged contents), and
otherwise replaces exactly the first item carrying the id by a copy whose
only changed field is `last_run_date`; every other item is unchanged. -/
theorem c10_update_last_run_frame (st : ScheduleStoreState) (sid : Nat)
    (d : String) :
    (ScheduleStore.update_last_run st sid d).next_id = st.next_id
    ∧ (ScheduleStore.update_last_run st sid d).file
        = some (ScheduleStore.encodeSnapshot st.next_id
            (ScheduleStore.setFirstLastRun st.items sid d))
    ∧ ((∀ it ∈ st.items, it.id ≠ sid) →
        (ScheduleStore.update_last_run st sid d).items = st.items ∧
        (ScheduleStore.update_last_run st sid d).file
          = some (ScheduleStore.encodeSnapshot st.next_id st.items))
    ∧ (∀ pre x post, st.items = pre ++ x :: post → x.id = sid →
        (∀ y ∈ pre, y.id ≠ sid) →
        (ScheduleStore.update_last_run st sid d).items
          = pre ++ { x with last_run_date := some d } :: post) := by
  refine ⟨rfl, rfl, fun h => ?_, fun pre x post hsplit hx hpre => ?_⟩
  · have := setFirst_absent (d := d) h
    exact ⟨this, by simp only [ScheduleStore.update_last_run,
      ScheduleStore.save, this]⟩
  · show ScheduleStore.setFirstLastRun st.items sid d = _
    rw [hsplit, setFirst_decomp hx pre post hpre]

/-- Closed witness for `c10_update_last_run_frame`: on the fixture store,
updating id 1 rewrites only that item's `last_run_date`, and updating the
absent id 99 leaves the contents identical while still rewriting the
file. -/
theorem c10_update_last_run_frame_witness :
    (ScheduleStore.update_last_run stW 1 "2024-01-02").items
      = [⟨1, 10, 20, "09:00", "hello", some "2024-01-02"⟩] ∧
    (ScheduleStore.update_last_run stW 99 "2024-01-02").items = stW.items ∧
    (ScheduleStore.update_last_run stW 99 "2024-01-02").file
      = some (ScheduleStore.encodeSnapshot stW.next_id stW.items) := by
  have h1 := c10_update_last_run_frame stW 1 "2024-01-02"
  have h99 := c10_update_last_run_frame stW 99 "2024-01-02"
  refine ⟨?_, (h99.2.2.1 (by decide)).1, (h99.2.2.1 (by decide)).2⟩
  exact h1.2.2.2 [] ⟨1, 10, 20, "09:00", "hello", some "2024-01-01"⟩ [] rfl rfl
    (by simp)

/-- Claim C8: outside the firing window — any tick whose minute is nonzero or
whose second exceeds 5 — the hourly digest tick body does nothing at all:
no guild is processed, no flag read, no channel resolved, nothing sent. -/
theorem c8_hourly_window (now_minute now_second : Nat) (gw : Gateway)
    (cfg : ConfigState) (ts : TaskStoreState) (guilds : List Nat)
    (h : now_minute ≠ 0 ∨ 5 < now_second) :
    checkHourly now_minute now_second gw cfg ts guilds = [] := by
  rcases h with h | h
  · rw [checkHourly, if_pos h]
  · rw [checkHourly]
    by_cases hm : now_minute ≠ 0
    · rw [if_pos hm]
    · rw [if_neg hm, if_pos h]

/-- Closed witness for `c8_hourly_window`: a tick at minute 3 with an
enabled guild and a nonempty task store still yields no outcomes. -/
theorem c8_hourly_window_witness :
    checkHourly 3 0 gwAllOk ⟨[(7, ⟨true, some 20⟩)]⟩ tasksW [7] = [] :=
  c8_hourly_window 3 0 gwAllOk ⟨[(7, ⟨true, some 20⟩)]⟩ tasksW [7]
    (Or.inl (by decide))

lemma checkSchedulesAux_attempts (gw : Gateway) (nt td : String) :
    ∀ (pending : List ScheduleItem) (st : ScheduleStoreState),
      (checkSchedulesAux gw nt td pending st).attempts
        = (pending.filter (scheduleDue nt td)).map ScheduleItem.id := by
  intro pending
  induction pending with
  | nil => intro st; rfl
  | cons it rest ih =>
    intro st
    rw [List.filter_cons]
    by_cases hdue : scheduleDue nt td it = true
    · rw [if_pos hdue]
      simp only [checkSchedulesAux]
      rw [if_pos (by simpa [scheduleDue] using hdue)]
      cases hr : resolveChannel gw it.channel_id with
      | error e => simp [ih]
      | ok ch =>
        by_cases htext : gw.is_text_channel ch
        · by_cases hsend : gw.send_ok ch
          · simp [htext, hsend, ih]
          · simp [htext, hsend, ih]
        · simp [htext, ih]
    · rw [if_neg hdue]
      simp only [checkSchedulesAux]
      rw [if_neg (by simpa [scheduleDue] using hdue)]
      exact ih st

/-- Claim C4: in both loops a single item's or guild's failure never aborts
the tick: the set of schedule items attempted is exactly the due ones and
is independent of the gateway's failures, and inside the firing window the
hourly tick processes every guild, whatever each guild's outcome. -/
theorem c4_failure_isolation (gw gw2 : Gateway) (nt td : String)
    (st : ScheduleStoreState) (cfg : ConfigState) (ts : TaskStoreState)
    (guilds : List Nat) (s : Nat) :
    (checkSchedules gw nt td st).attempts
      = ((ScheduleStore.all st).filter (scheduleDue nt td)).map ScheduleItem.id
    ∧ (checkSchedules gw nt td st).attempts
      = (checkSchedules gw2 nt td st).attempts
    ∧ (s ≤ 5 → (checkHourly 0 s gw cfg ts guilds).map Prod.fst = guilds) := by
  refine ⟨checkSchedulesAux_attempts gw nt td _ st, ?_, fun hs => ?_⟩
  · simp only [checkSchedules]
    rw [checkSchedulesAux_attempts gw nt td _ st,
        checkSchedulesAux_attempts gw2 nt td _ st]
  · rw [checkHourly, if_neg (by omega), if_neg (by omega), List.map_map]
    exact List.map_id _

/-- Closed witness for `c4_failure_isolation`: at second 3 of minute 0 both
guilds appear in the outcome list. -/
theorem c4_failure_isolation_witness :
    (checkHourly 0 3 gwAllOk ⟨[(7, ⟨true, some 20⟩)]⟩ tasksW [7, 8]).map
      Prod.fst = [7, 8] :=
  (c4_failure_isolation gwAllOk gwAllOk "09:00" "2024-01-02" stW
    ⟨[(7, ⟨true, some 20⟩)]⟩ tasksW [7, 8] 3).2.2 (by decide)

lemma checkSchedulesAux_items (gw : Gateway) (nt td : String) :
    ∀ (pending : List ScheduleItem) (st : ScheduleStoreState),
      (checkSchedulesAux gw nt td pending st).store.items
        = (pending.filter
            (fun it => scheduleDue nt td it && deliverSuccess gw it)).foldl
            (fun acc it => ScheduleStore.setFirstLastRun acc it.id td)
            st.items := by
  intro pending
  induction pending with
  | nil => intro st; rfl
  | cons it rest ih =>
    intro st
    rw [List.filter_cons]
    by_cases hdue : scheduleDue nt td it = true
    · simp only [checkSchedulesAux]
      rw [if_pos (by simpa [scheduleDue] using hdue)]
      cases hr : resolveChannel gw it.channel_id with
      | error e =>
        have hds : deliverSuccess gw it = false := by
          simp [deliverSuccess, hr]
        rw [if_neg (by simp [hds])]
        exact ih st
      | ok ch =>
        by_cases htext : gw.is_text_channel ch = true
        · by_cases hsend : gw.send_ok ch = true
          · have hds : deliverSuccess gw it = true := by
              simp [deliverSuccess, hr, htext, hsend]
            rw [if_pos (by simp [hds, hdue]), List.foldl_cons]
            simp only [htext, hsend, if_true]
            exact ih (ScheduleStore.update_last_run st it.id td)
          · have hds : deliverSuccess gw it = false := by
              simp [deliverSuccess, hr, hsend]
            rw [if_neg (by simp [hds])]
            simp only [htext, if_true, eq_false_of_ne_true hsend, if_false]
            exact ih st
        · have hds : deliverSuccess gw it = false := by
            simp [deliverSuccess, hr, eq_false_of_ne_true htext]
          rw [if_neg (by simp [hds])]
          simp only [eq_false_of_ne_true htext, if_false]
          exact ih st
    · rw [if_neg (by simp [eq_false_of_ne_true hdue])]
      simp only [checkSchedulesAux]
      rw [if_neg (by simpa [scheduleDue] using hdue)]
      exact ih st

lemma setFirst_map_id (sid : Nat) (d : String) :
    ∀ l : List ScheduleItem,
      (ScheduleStore.setFirstLastRun l sid d).map ScheduleItem.id
        = l.map ScheduleItem.id := by
  intro l
  induction l with
  | nil => rfl
  | cons x xs ih =>
    rw [ScheduleStore.setFirstLastRun]
    by_cases hx : x.id = sid
    · rw [if_pos hx]
      simp
    · rw [if_neg hx]
      simp [ih]

lemma foldl_setFirst_map_id (td : String) :
    ∀ (upds : List ScheduleItem) (acc : List ScheduleItem),
      ((upds.foldl
          (fun a u => ScheduleStore.setFirstLastRun a u.id td) acc).map
        ScheduleItem.id) = acc.map ScheduleItem.id := by
  intro upds
  induction upds with
  | nil => intro acc; rfl
  | cons u rest ih =>
    intro acc
    rw [List.foldl_cons, ih, setFirst_map_id]

lemma setFirst_keeps_marked {tid : Nat} {d : String} {sid : Nat} :
    ∀ l : List ScheduleItem,
      (∀ x ∈ l, x.id = tid → x.last_run_date = some d) →
      ∀ x ∈ ScheduleStore.setFirstLastRun l sid d,
        x.id = tid → x.last_run_date = some d := by
  intro l
  induction l with
  | nil => intro _ x hx; simp [ScheduleStore.setFirstLastRun] at hx
  | cons y ys ih =>
    intro hl x hx hxid
    rw [ScheduleStore.setFirstLastRun] at hx
    by_cases hy : y.id = sid
    · rw [if_pos hy] at hx
      rcases List.mem_cons.mp hx with rfl | hmem
      · rfl
      · exact hl x (List.mem_cons_of_mem y hmem) hxid
    · rw [if_neg hy] at hx
      rcases List.mem_cons.mp hx with heq | hmem
      · exact hl x (by rw [heq]; exact List.mem_cons_self _ _) hxid
      · exact ih (fun z hz => hl z (List.mem_cons_of_mem y hz)) x hmem hxid

lemma setFirst_marks {tid : Nat} {d : String} :
    ∀ l : List ScheduleItem, (l.map ScheduleItem.id).Nodup →
      ∀ x ∈ ScheduleStore.setFirstLastRun l tid d,
        x.id = tid → x.last_run_date = some d := by
  intro l
  induction l with
  | nil => intro _ x hx; simp [ScheduleStore.setFirstLastRun] at hx
  | cons y ys ih =>
    intro hnd x hx hxid
    rw [List.map_cons, List.nodup_cons] at hnd
    rw [ScheduleStore.setFirstLastRun] at hx
    by_cases hy : y.id = tid
    · rw [if_pos hy] at hx
      rcases List.mem_cons.mp hx with rfl | hmem
      · rfl
      · exfalso
        exact hnd.1 (hy ▸ hxid ▸ List.mem_map_of_mem ScheduleItem.id hmem)
    · rw [if_neg hy] at hx
      rcases List.mem_cons.mp hx with rfl | hmem
      · exact absurd hxid hy
      · exact ih hnd.2 x hmem hxid

lemma foldl_keeps_marked {tid : Nat} {td : String} :
    ∀ (upds : List ScheduleItem) (acc : List ScheduleItem),
      (∀ x ∈ acc, x.id = tid → x.last_run_date = some td) →
      ∀ x ∈ upds.foldl
          (fun a u => ScheduleStore.setFirstLastRun a u.id td) acc,
        x.id = tid → x.last_run_date = some td := by
  intro upds
  induction upds with
  | nil => intro acc h; exact h
  | cons u rest ih =>
    intro acc h
    rw [List.foldl_cons]
    exact ih _ (setFirst_keeps_marked acc h)

lemma foldl_marks {tid : Nat} {td : String} :
    ∀ (upds : List ScheduleItem) (acc : List ScheduleItem),
      (acc.map ScheduleItem.id).Nodup → (∃ u ∈ upds, u.id = tid) →
      ∀ x ∈ upds.foldl
          (fun a u => ScheduleStore.setFirstLastRun a u.id td) acc,
        x.id = tid → x.last_run_date = some td := by
  intro upds
  induction upds with
  | nil => intro acc _ h; exact absurd h (by simp)
  | cons u rest ih =>
    intro acc hnd hex
    rw [List.foldl_cons]
    by_cases hu : u.id = tid
    · exact foldl_keeps_marked rest _ (hu ▸ setFirst_marks acc hnd)
    · rcases hex with ⟨w, hw, hwid⟩
      rcases List.mem_cons.mp hw with rfl | hwmem
      · exact absurd hwid hu
      · exact ih _ (by rw [setFirst_map_id]; exact hnd) ⟨w, hwmem, hwid⟩

/-- Claim C1: on a tick whose formatted time equals an item's `time` string
and whose date differs from the item's `last_run_date`, delivery is
attempted; an item whose `last_run_date` already equals today's date is
not attempted even when its time matches; and after a successful send the
store records today's date for the item, so a further tick of the same day
no longer attempts it — the item fires at most once per calendar day. -/
theorem c1_fires_once_per_day (gw : Gateway) (nt td : String)
    (st : ScheduleStoreState) (item : ScheduleItem)
    (hmem : item ∈ st.items)
    (hnd : (st.items.map ScheduleItem.id).Nodup) :
    (item.time = nt → item.last_run_date ≠ some td →
      item.id ∈ (checkSchedules gw nt td st).attempts)
    ∧ (item.last_run_date = some td →
      item.id ∉ (checkSchedules gw nt td st).attempts)
    ∧ (item.time = nt → item.last_run_date ≠ some td →
      deliverSuccess gw item = true →
      (∀ x ∈ (checkSchedules gw nt td st).store.items,
        x.id = item.id → x.last_run_date = some td)
      ∧ item.id ∉
          (checkSchedules gw nt td (checkSchedules gw nt td st).store).attempts) := by
  have hA : (checkSchedules gw nt td st).attempts
      = (st.items.filter (scheduleDue nt td)).map ScheduleItem.id :=
    checkSchedulesAux_attempts gw nt td st.items st
  refine ⟨fun h1 h2 => ?_, fun h => ?_, fun h1 h2 h3 => ?_⟩
  · rw [hA]
    have hdue : scheduleDue nt td item = true := by simp [scheduleDue, h1, h2]
    exact List.mem_map_of_mem _ (List.mem_filter.mpr ⟨hmem, hdue⟩)
  · rw [hA]
    intro hcontra
    rcases List.mem_map.mp hcontra with ⟨x, hxf, hxid⟩
    rcases List.mem_filter.mp hxf with ⟨hxmem, hxdue⟩
    have hxeq : x = item := List.inj_on_of_nodup_map hnd hxmem hmem hxid
    rw [hxeq] at hxdue
    simp [scheduleDue, h] at hxdue
  · have hItems : (checkSchedules gw nt td st).store.items
        = (st.items.filter
            (fun it => scheduleDue nt td it && deliverSuccess gw it)).foldl
            (fun acc it => ScheduleStore.setFirstLastRun acc it.id td)
            st.items :=
      checkSchedulesAux_items gw nt td st.items st
    have hdue : scheduleDue nt td item = true := by simp [scheduleDue, h1, h2]
    have hupds : item ∈ st.items.filter
        (fun it => scheduleDue nt td it && deliverSuccess gw it) :=
      List.mem_filter.mpr ⟨hmem, by simp [hdue, h3]⟩
    have hmarked : ∀ x ∈ (checkSchedules gw nt td st).store.items,
        x.id = item.id → x.last_run_date = some td := by
      rw [hItems]
      exact foldl_marks _ _ hnd ⟨item, hupds, rfl⟩
    refine ⟨hmarked, ?_⟩
    have hA2 : (checkSchedules gw nt td (checkSchedules gw nt td st).store).attempts
        = ((checkSchedules gw nt td st).store.items.filter
            (scheduleDue nt td)).map ScheduleItem.id :=
      checkSchedulesAux_attempts gw nt td _ _
    rw [hA2]
    intro hcontra
    rcases List.mem_map.mp hcontra with ⟨x, hxf, hxid⟩
    rcases List.mem_filter.mp hxf with ⟨hxmem, hxdue⟩
    have hx := hmarked x hxmem hxid
    simp [scheduleDue, hx] at hxdue

/-- Closed witness for `c1_fires_once_per_day`: the fixture item, due at
09:00 and last run on 2024-01-01, is attempted on the 2024-01-02 09:00
tick and is no longer attempted on a second tick of the same day. -/
theorem c1_fires_once_per_day_witness :
    (⟨1, 10, 20, "09:00", "hello", some "2024-01-01"⟩ : ScheduleItem) ∈ stW.items
    ∧ 1 ∈ (checkSchedules gwAllOk "09:00" "2024-01-02" stW).attempts
    ∧ 1 ∉ (checkSchedules gwAllOk "09:00" "2024-01-02"
        (checkSchedules gwAllOk "09:00" "2024-01-02" stW).store).attempts := by
  have h := c1_fires_once_per_day gwAllOk "09:00" "2024-01-02" stW
    ⟨1, 10, 20, "09:00", "hello", some "2024-01-01"⟩ (by decide) (by decide)
  exact ⟨by decide, h.1 rfl (by decide), (h.2.2 rfl (by decide) (by decide)).2⟩

lemma strLtb_irrefl : ∀ a : List Char, strLtb a a = false := by
  intro a
  induction a with
  | nil => rfl
  | cons x xs ih =>
    rw [strLtb, if_neg (by omega), if_neg (by omega)]
    exact ih

lemma strLtb_trans :
    ∀ a b c : List Char, strLtb a b = true → strLtb b c = true →
      strLtb a c = true := by
  intro a
  induction a with
  | nil =>
    intro b c hab hbc
    cases b with
    | nil => exact absurd hab (by simp [strLtb])
    | cons y ys =>
      cases c with
      | nil => exact absurd hbc (by simp [strLtb])
      | cons z zs => rfl
  | cons x xs ih =>
    intro b c hab hbc
    cases b with
    | nil => exact absurd hab (by simp [strLtb])
    | cons y ys =>
      cases c with
      | nil => exact absurd hbc (by simp [strLtb])
      | cons z zs =>
        rw [strLtb] at hab hbc ⊢
        split_ifs at hab hbc ⊢ <;>
          first
          | rfl
          | omega
          | exact ih ys zs hab hbc

lemma strLtb_asymm :
    ∀ a b : List Char, strLtb a b = true → strLtb b a = false := by
  intro a
  induction a with
  | nil =>
    intro b hab
    cases b with
    | nil => exact absurd hab (by simp [strLtb])
    | cons y ys => rfl
  | cons x xs ih =>
    intro b hab
    cases b with
    | nil => exact absurd hab (by simp [strLtb])
    | cons y ys =>
      rw [strLtb] at hab ⊢
      split_ifs at hab ⊢ <;>
        first
        | rfl
        | omega
        | exact ih ys hab

lemma strLtb_conn :
    ∀ a b : List Char, strLtb a b = false → strLtb b a = false → a = b := by
  intro a
  induction a with
  | nil =>
    intro b hab _
    cases b with
    | nil => rfl
    | cons y ys => exact absurd hab (by simp [strLtb])
  | cons x xs ih =>
    intro b hab hba
    cases b with
    | nil => exact absurd hba (by simp [strLtb])
    | cons y ys =>
      rw [strLtb] at hab hba
      split_ifs at hab hba with h1 h2
      exact congrArg₂ List.cons (charCode_inj (by omega)) (ih ys hab hba)

lemma taskKeyLt_eq_true_iff (a b : TaskItem) :
    taskKeyLt a b = true ↔
      (strLtb (deadlineSortKey a.deadline).data
          (deadlineSortKey b.deadline).data = true
       ∨ ((deadlineSortKey a.deadline).data
            = (deadlineSortKey b.deadline).data ∧
          (urgencyRank a.urgency < urgencyRank b.urgency ∨
           (urgencyRank a.urgency = urgencyRank b.urgency ∧
            a.id < b.id)))) := by
  simp [taskKeyLt, Bool.or_eq_true, Bool.and_eq_true, beq_iff_eq,
    decide_eq_true_eq]

lemma taskKeyLt_asymm {a b : TaskItem} (h : taskKeyLt a b = true) :
    taskKeyLt b a = false := by
  rw [Bool.eq_false_iff]
  intro h2
  rw [taskKeyLt_eq_true_iff] at h h2
  rcases h with h | ⟨heq, h⟩
  · rcases h2 with h2 | ⟨heq2, h2⟩
    · exact absurd h2 (by rw [strLtb_asymm _ _ h]; simp)
    · rw [heq2] at h
      exact absurd h (by rw [strLtb_irrefl]; simp)
  · rcases h2 with h2 | ⟨heq2, h2⟩
    · rw [heq] at h2
      exact absurd h2 (by rw [strLtb_irrefl]; simp)
    · omega

lemma taskKeyLt_trans {a b c : TaskItem} (hab : taskKeyLt a b = true)
    (hbc : taskKeyLt b c = true) : taskKeyLt a c = true := by
  rw [taskKeyLt_eq_true_iff] at hab hbc ⊢
  rcases hab with hab | ⟨haeq, hab⟩
  · rcases hbc with hbc | ⟨hbeq, hbc⟩
    · exact Or.inl (strLtb_trans _ _ _ hab hbc)
    · exact Or.inl (hbeq ▸ hab)
  · rcases hbc with hbc | ⟨hbeq, hbc⟩
    · exact Or.inl (haeq ▸ hbc)
    · exact Or.inr ⟨haeq.trans hbeq, by omega⟩

lemma mem_insertTask {x w : TaskItem} :
    ∀ {l : List TaskItem}, w ∈ insertTask x l ↔ w = x ∨ w ∈ l := by
  intro l
  induction l with
  | nil => simp [insertTask]
  | cons y ys ih =>
    rw [insertTask]
    by_cases h : taskKeyLt x y = true
    · rw [if_pos h]
      simp [List.mem_cons, or_comm, or_assoc, or_left_comm]
    · rw [if_neg h]
      simp only [List.mem_cons, ih]
      tauto

lemma perm_insertTask (x : TaskItem) :
    ∀ l : List TaskItem, (insertTask x l).Perm (x :: l) := by
  intro l
  induction l with
  | nil => exact List.Perm.refl _
  | cons y ys ih =>
    rw [insertTask]
    by_cases h : taskKeyLt x y = true
    · rw [if_pos h]
    · rw [if_neg h]
      exact (ih.cons y).trans (List.Perm.swap x y ys)

lemma pairwise_insertTask {x : TaskItem} :
    ∀ {l : List TaskItem},
      l.Pairwise (fun a b => taskKeyLt b a = false) →
      (insertTask x l).Pairwise (fun a b => taskKeyLt b a = false) := by
  intro l
  induction l with
  | nil => intro _; simp [insertTask]
  | cons y ys ih =>
    intro hp
    rw [List.pairwise_cons] at hp
    rw [insertTask]
    by_cases h : taskKeyLt x y = true
    · rw [if_pos h]
      rw [List.pairwise_cons]
      refine ⟨?_, List.pairwise_cons.mpr hp⟩
      intro w hw
      rcases List.mem_cons.mp hw with rfl | hmem
      · exact taskKeyLt_asymm h
      · rw [Bool.eq_false_iff]
        intro hwx
        have : taskKeyLt w y = true := taskKeyLt_trans hwx h
        exact absurd this (by rw [hp.1 w hmem]; simp)
    · rw [if_neg h]
      rw [List.pairwise_cons]
      refine ⟨?_, ih hp.2⟩
      intro w hw
      rcases mem_insertTask.mp hw with rfl | hmem
      · exact Bool.eq_false_iff.mpr h
      · exact hp.1 w hmem

lemma sortTasks_perm (l : List TaskItem) : (sortTasks l).Perm l := by
  have key : ∀ (m acc : List TaskItem),
      (m.foldl (fun a x => insertTask x a) acc).Perm (acc ++ m) := by
    intro m
    induction m with
    | nil => intro acc; simp
    | cons x xs ih =>
      intro acc
      rw [List.foldl_cons]
      refine (ih (insertTask x acc)).trans ?_
      refine (List.Perm.append_right xs (perm_insertTask x acc)).trans ?_
      exact (@List.perm_middle _ x acc xs).symm
  simpa using key l []

lemma sortTasks_sorted (l : List TaskItem) :
    (sortTasks l).Pairwise (fun a b => taskKeyLt b a = false) := by
  have key : ∀ (m acc : List TaskItem),
      acc.Pairwise (fun a b => taskKeyLt b a = false) →
      (m.foldl (fun a x => insertTask x a) acc).Pairwise
        (fun a b => taskKeyLt b a = false) := by
    intro m
    induction m with
    | nil => intro acc h; exact h
    | cons x xs ih =>
      intro acc h
      rw [List.foldl_cons]
      exact ih _ (pairwise_insertTask h)
  exact key l [] (List.Pairwise.nil)

lemma code_lt_of_spec_lt {a b : TaskItem} (hga : goodDeadline a = true)
    (hgb : goodDeadline b = true) (hs : specTaskLt b a = true) :
    taskKeyLt b a = true := by
  cases hb : b.deadline with
  | some db =>
    have hgb2 := hgb
    rw [goodDeadline, hb] at hgb2
    simp only [Bool.and_eq_true, Bool.not_eq_true', List.isEmpty_eq_false]
      at hgb2
    have hkb : deadlineSortKey b.deadline = db := by
      rw [hb]
      simp only [deadlineSortKey]
      rw [if_neg hgb2.1]
    cases ha : a.deadline with
    | some da =>
      have hga2 := hga
      rw [goodDeadline, ha] at hga2
      simp only [Bool.and_eq_true, Bool.not_eq_true', List.isEmpty_eq_false]
        at hga2
      have hka : deadlineSortKey a.deadline = da := by
        rw [ha]
        simp only [deadlineSortKey]
        rw [if_neg hga2.1]
      simp only [specTaskLt, hb, ha] at hs
      simp only [taskKeyLt, hkb, hka]
      exact hs
    | none =>
      have hka : deadlineSortKey a.deadline = "9999-12-31" := by
        rw [ha, deadlineSortKey]
      simp only [taskKeyLt, hkb, hka]
      simp [hgb2.2]
  | none =>
    cases ha : a.deadline with
    | some da =>
      simp only [specTaskLt, hb, ha] at hs
      exact absurd hs (by simp)
    | none =>
      simp only [specTaskLt, hb, ha] at hs
      simp only [taskKeyLt, deadlineSortKey, hb, ha]
      simp only [strLtb_irrefl, Bool.false_or, beq_self_eq_true,
        Bool.true_and]
      exact hs

lemma spec_of_code_le {a b : TaskItem} (hga : goodDeadline a = true)
    (hgb : goodDeadline b = true) (h : taskKeyLt b a = false) :
    specTaskLe a b = true := by
  rw [specTaskLe, Bool.not_eq_true']
  rw [Bool.eq_false_iff]
  intro hs
  exact absurd (code_lt_of_spec_lt hga hgb hs) (by rw [h]; simp)

/-- Claim C2, amended: for every list of task items whose present deadlines
are nonempty strings lexicographically below the sentinel `"9999-12-31"` —
every calendar date but the sentinel itself — `build_task_embed` presents
the items exactly in the spec's order: deadline ascending, items lacking a
deadline last, then urgency rank high < medium < low < unlabeled, then id
ascending. The rendered field list is the sorted items rendered in order,
the sorted list is a permutation of the input, and it is pairwise ordered
by the spec's comparison. -/
theorem c2_digest_sorted (items : List TaskItem)
    (hg : ∀ it ∈ items, goodDeadline it = true) :
    (build_task_embed items).fields = (sortTasks items).map renderTaskField
    ∧ (sortTasks items).Perm items
    ∧ (sortTasks items).Pairwise (fun a b => specTaskLe a b = true) := by
  refine ⟨rfl, sortTasks_perm items, ?_⟩
  refine List.Pairwise.imp_of_mem ?_ (sortTasks_sorted items)
  intro a b ha hb hab
  exact spec_of_code_le (hg a ((sortTasks_perm items).mem_iff.mp ha))
    (hg b ((sortTasks_perm items).mem_iff.mp hb)) hab

/-- Counterexample to claim C2 as stated: with `ceA` (no deadline, high
urgency, id 1) and `ceB` (deadline `"9999-12-31"`, low urgency, id 2) the
digest presents `ceA` first, although the claimed order — items lacking a
deadline last — demands `ceB` first; the embed's field order is therefore
not pairwise ordered by the spec's comparison. -/
theorem c2_digest_sorted_counterexample :
    sortTasks [ceA, ceB] = [ceA, ceB]
    ∧ (build_task_embed [ceA, ceB]).fields.map EmbedField.name = ["#1", "#2"]
    ∧ specTaskLe ceA ceB = false
    ∧ ¬ (sortTasks [ceA, ceB]).Pairwise
        (fun a b => specTaskLe a b = true) := by
  refine ⟨by decide, by decide, by decide, ?_⟩
  intro hpw
  rw [(by decide : sortTasks [ceA, ceB] = [ceA, ceB])] at hpw
  have h1 := (List.pairwise_cons.mp hpw).1 ceB (List.mem_cons_self ceB [])
  exact absurd h1 (by decide)

/-- Closed witness for `c2_digest_sorted`: the specification's own example
list (no-deadline/low, 2024-01-01/high, 2024-01-01/medium) satisfies the
deadline proviso and sorts as claimed. -/
theorem c2_digest_sorted_witness :
    (sortTasks tasksLW).Perm tasksLW
    ∧ (sortTasks tasksLW).Pairwise (fun a b => specTaskLe a b = true)
    ∧ (sortTasks tasksLW).map TaskItem.id = [2, 3, 1] := by
  have h := c2_digest_sorted tasksLW (by decide)
  exact ⟨h.2.1, h.2.2, by decide⟩

lemma minuteRest_nil : minuteRest [] = false := rfl

lemma minuteRest_long (a b c : Char) (t : List Char) :
    minuteRest (a :: b :: c :: t) = false := rfl

lemma is_valid_time_eq_timeSem : ∀ s : String, is_valid_time s = timeSem s := by
  intro s
  obtain ⟨l⟩ := s
  show is_valid_time ⟨l⟩ = timeSem ⟨l⟩
  rcases l with _ | ⟨a, _ | ⟨b, _ | ⟨c, _ | ⟨d, _ | ⟨e, rest⟩⟩⟩⟩⟩
  · rfl
  · rfl
  · simp [is_valid_time, timeSem, colonMinute, minuteRest_nil]
  · simp only [is_valid_time, timeSem, hourTwoDigits, colonMinute,
      minuteRest, minuteRest_nil, isAsciiDigit, digitVal, Bool.and_false,
      Bool.false_or, Bool.false_and, Bool.or_false]
    rw [Bool.eq_iff_iff]
    simp only [Bool.or_eq_true, Bool.and_eq_true, decide_eq_true_eq]
    omega
  · simp only [is_valid_time, timeSem, hourTwoDigits, colonMinute,
      minuteRest, minuteRest_nil, isAsciiDigit, digitVal, Bool.and_false,
      Bool.false_or, Bool.false_and, Bool.or_false]
    rw [Bool.eq_iff_iff]
    simp only [Bool.or_eq_true, Bool.and_eq_true, decide_eq_true_eq]
    omega
  · cases rest with
    | nil =>
      simp only [is_valid_time, timeSem, hourTwoDigits, colonMinute,
        minuteRest, minuteRest_nil, minuteRest_long, isAsciiDigit, digitVal,
        Bool.and_false, Bool.false_or, Bool.false_and, Bool.or_false]
      rw [Bool.eq_iff_iff]
      simp only [Bool.or_eq_true, Bool.and_eq_true, decide_eq_true_eq]
      omega
    | cons f t =>
      simp [is_valid_time, timeSem, colonMinute, minuteRest_long]

lemma pad2_accepted : ∀ hh < 24, ∀ mm < 60,
    is_valid_time (pad2 hh ++ ":" ++ pad2 mm) = true := by decide

/-- Claim C3, amended: the `schedule_add` handler creates an item only when
`_is_valid_time` accepts the time argument, and stores the argument string
verbatim; the validator accepts exactly the strings of the form
hour-colon-minute with a one- or two-digit hour below 24 and a one- or
two-digit minute below 60 (CPython `strptime("%H:%M")`), so every stored
`time` is a valid 24-hour time and every zero-padded `HH:MM` string is
accepted — but acceptance does not force zero-padding. -/
theorem c3_time_validation (st : ScheduleStoreState) (g c : Nat)
    (t m : String) :
    (∀ r, schedule_add st g c t m = some r →
      r.2.time = t ∧ is_valid_time t = true)
    ∧ (is_valid_time t = false → schedule_add st g c t m = none)
    ∧ is_valid_time t = timeSem t
    ∧ (∀ hh < 24, ∀ mm < 60,
        is_valid_time (pad2 hh ++ ":" ++ pad2 mm) = true) := by
  refine ⟨fun r hr => ?_, fun hv => ?_, is_valid_time_eq_timeSem t,
    pad2_accepted⟩
  · by_cases hv : is_valid_time t = true
    · rw [schedule_add, if_pos hv] at hr
      exact ⟨by rw [← Option.some.inj hr]; rfl, hv⟩
    · rw [schedule_add, if_neg hv] at hr
      exact absurd hr (by simp)
  · rw [schedule_add, if_neg (by simp [hv])]

/-- Counterexample to claim C3 as stated: the validator accepts `"9:05"`,
which is not a zero-padded `HH:MM` string, and the add command then stores
exactly that unpadded string in the created item. -/
theorem c3_time_validation_counterexample :
    is_valid_time "9:05" = true
    ∧ zeroPaddedHHMM "9:05" = false
    ∧ (schedule_add stW 1 2 "9:05" "msg").map (fun r => r.2.time)
        = some "9:05" := by decide

/-- Closed witness for `c3_time_validation`: the unpadded accepted string
`"9:05"` is stored verbatim, agrees with the semantic reading, and the
zero-padded rendering of 9:05 is accepted too. -/
theorem c3_time_validation_witness :
    (ScheduleStore.add stW 1 2 "9:05" "msg").2.time = "9:05"
    ∧ is_valid_time "9:05" = true
    ∧ is_valid_time "9:05" = timeSem "9:05"
    ∧ is_valid_time (pad2 9 ++ ":" ++ pad2 5) = true := by
  have h := c3_time_validation stW 1 2 "9:05" "msg"
  refine ⟨(h.1 _ rfl).1, (h.1 _ rfl).2, h.2.2.1,
    h.2.2.2 9 (by decide) 5 (by decide)⟩
